import Mathlib

/-!
Verification of `tools/compile_assets.py` (tinygl repository).

The script walks an input asset tree, classifies files by extension,
computes mirrored destination paths under an output tree, decides
staleness by modification-time comparison, and invokes an external
asset compiler for each stale file.

Shallow embedding choices:
* A filesystem path is a list of components (`Path := List String`).
* The input tree (what `os.walk` yields, together with the mtimes
  `os.path.getmtime` would report for the sources) is a list of
  `FileEntry` records; the output tree is an association list from
  absolute destination paths to mtimes.
* The external compiler (`subprocess.run([compiler_path, src, dst])`)
  is an abstract `Compiler`: an exit code and a transformer describing
  what it leaves at the destination path.
* `os.path.exists(compiler_path)` is a boolean parameter of the run.
* Machine integers do not occur in the driver; mtimes are `Nat`.
  `get_hash` (MD5 of the file contents, unused by the driver) is
  embedded over the byte list of the contents with `% 2^32` arithmetic.
-/

namespace TinyGL

/-- A filesystem path, as a list of components. -/
abbrev Path : Type := List String

/-- Render a path the way the Python script interpolates it into log
messages (POSIX separator). -/
def joinPath (p : Path) : String := String.intercalate "/" p

/-- Index of the last '.' in a character list (Python `str.rfind('.')`),
`none` when there is no dot. -/
def lastDotIdx : List Char → Option Nat
  | [] => none
  | ch :: cs =>
    match lastDotIdx cs with
    | some i => some (i + 1)
    | none => if ch = '.' then some 0 else none

/-- `os.path.splitext` restricted to a bare file name (no separators):
split at the last dot, unless every character before that dot is itself
a dot, in which case the whole name is the root and the extension is
empty (this is why a file literally named ".png" has no extension). -/
def splitext (s : String) : String × String :=
  let cs := s.toList
  match lastDotIdx cs with
  | none => (s, "")
  | some i =>
    if (cs.take i).all (fun ch => ch = '.') then (s, "")
    else (String.mk (cs.take i), String.mk (cs.drop i))

/-- Python `str.lower()` (character-wise lowering). -/
def strLower (s : String) : String := String.mk (s.toList.map Char.toLower)

/-- Lookup in an association list by key (Python `dict` membership /
indexing for the extension table, and `os.path.exists`/`os.path.getmtime`
for the output tree). -/
def assocLookup {α β : Type} [DecidableEq α] : List (α × β) → α → Option β
  | [], _ => none
  | e :: es, a => if a = e.1 then some e.2 else assocLookup es a

/-- The `supported_extensions` dict of the script, in source order. -/
def supported_extensions : List (String × String) :=
  [(".obj", ".tmodel"),
   (".fbx", ".tmodel"),
   (".gltf", ".tmodel"),
   (".glb", ".tmodel"),
   (".png", ".ttex"),
   (".jpg", ".ttex"),
   (".jpeg", ".ttex"),
   (".tga", ".ttex"),
   (".bmp", ".ttex")]

/-- `ext = os.path.splitext(file)[1].lower()` followed by the
`supported_extensions` lookup: the classification the driver applies to
a file name. -/
def extClass (name : String) : Option String :=
  assocLookup supported_extensions (strLower (splitext name).2)

/-- One file of the input tree: its directory components relative to
`input_dir`, its name, the mtime `os.path.getmtime` reports for it, and
its content bytes (read only by `get_hash`, never by the driver). -/
structure FileEntry where
  dirs : Path
  name : String
  mtime : Nat
  content : List Nat
  deriving DecidableEq

/-- The filesystem as the driver sees it: the files `os.walk(input_dir)`
yields (in walk order) and the destination tree as a map from absolute
destination paths to mtimes. -/
structure FSState where
  input : List FileEntry
  output : List (Path × Nat)
  deriving DecidableEq

/-- The external asset compiler, abstract: given the absolute source and
destination paths, its exit code, and the transformation it applies to
the destination entry (old mtime, if the destination existed, to new). -/
structure Compiler where
  exitCode : Path → Path → Nat
  writes : Path → Path → Option Nat → Option Nat

/-- Remove the entry of a path from the output map. -/
def eraseEntry : List (Path × Nat) → Path → List (Path × Nat)
  | [], _ => []
  | e :: es, p => if e.1 = p then eraseEntry es p else e :: eraseEntry es p

/-- Overwrite the entry of a path in the output map (`none` erases it). -/
def setMtime (m : List (Path × Nat)) (p : Path) : Option Nat → List (Path × Nat)
  | some t => (p, t) :: eraseEntry m p
  | none => eraseEntry m p

/-- Absolute source path: `src_path = os.path.join(root, file)`. -/
def srcPathOf (input_dir : Path) (f : FileEntry) : Path :=
  input_dir ++ f.dirs ++ [f.name]

/-- Absolute destination path:
`dst_path = os.path.join(output_dir, os.path.splitext(rel_path)[0] + supported_extensions[ext])`. -/
def dstPathOf (output_dir : Path) (f : FileEntry) (oext : String) : Path :=
  output_dir ++ f.dirs ++ [(splitext f.name).1 ++ oext]

/-- What one loop iteration produces: log lines printed, compiler
invocations performed (source, destination), `os.makedirs` calls, and
the resulting output tree. -/
structure StepResult where
  logs : List String
  invocations : List (Path × Path)
  mkdirs : List Path
  output : List (Path × Nat)
  deriving DecidableEq

/-- The body of the `for file in files` loop of `compile_assets`, for
one file, starting from output tree `out`:
classify by lowercased extension; if recognized, compute paths, call
`os.makedirs(os.path.dirname(dst_path), exist_ok=True)`, decide
`need_compile` (`True` unless the destination exists with mtime `>=`
the source's), and if stale print the compiling line and run the
compiler, printing a failure line when its exit status is nonzero. -/
def processFile (input_dir output_dir : Path) (c : Compiler)
    (out : List (Path × Nat)) (f : FileEntry) : StepResult :=
  match extClass f.name with
  | none => ⟨[], [], [], out⟩
  | some oext =>
    let src_path := srcPathOf input_dir f
    let rel_path := f.dirs ++ [f.name]
    let dst_rel := f.dirs ++ [(splitext f.name).1 ++ oext]
    let dst_path := dstPathOf output_dir f oext
    let need_compile :=
      match assocLookup out dst_path with
      | some t => decide (t < f.mtime)
      | none => true
    if need_compile then
      let code := c.exitCode src_path dst_path
      ⟨["Compiling: " ++ joinPath rel_path ++ " -> " ++ joinPath dst_rel]
         ++ (if code = 0 then [] else ["Failed to compile " ++ joinPath src_path]),
       [(src_path, dst_path)],
       [output_dir ++ f.dirs],
       setMtime out dst_path (c.writes src_path dst_path (assocLookup out dst_path))⟩
    else
      ⟨[], [], [output_dir ++ f.dirs], out⟩

/-- The `for root, dirs, files in os.walk(input_dir)` loop: process the
walked files in order, threading the output tree. -/
def runFiles (input_dir output_dir : Path) (c : Compiler) :
    List (Path × Nat) → List FileEntry → StepResult
  | out, [] => ⟨[], [], [], out⟩
  | out, f :: fs =>
    let r := processFile input_dir output_dir c out f
    let r2 := runFiles input_dir output_dir c r.output fs
    ⟨r.logs ++ r2.logs, r.invocations ++ r2.invocations,
     r.mkdirs ++ r2.mkdirs, r2.output⟩

/-- Outcome of a whole `compile_assets` call. -/
structure RunResult where
  logs : List String
  invocations : List (Path × Path)
  mkdirs : List Path
  fs : FSState
  deriving DecidableEq

/-- `compile_assets(input_dir, output_dir, compiler_path)`.
`compiler_exists` is the value of `os.path.exists(compiler_path)`: when
false the function prints the error line and returns before any
traversal; otherwise it walks the input tree. The input tree is never
written. -/
def compile_assets (input_dir output_dir compiler_path : Path)
    (c : Compiler) (compiler_exists : Bool) (st : FSState) : RunResult :=
  if compiler_exists then
    let r := runFiles input_dir output_dir c st.output st.input
    ⟨r.logs, r.invocations, r.mkdirs, ⟨st.input, r.output⟩⟩
  else
    ⟨["Error: Compiler not found at " ++ joinPath compiler_path], [], [], st⟩

/-- The output tree after the walk over `st.input` has processed the
first `k` files (the state against which file `k`'s staleness check
runs). -/
def walkPre (input_dir output_dir : Path) (c : Compiler) (st : FSState)
    (k : Nat) : List (Path × Nat) :=
  (runFiles input_dir output_dir c st.output (st.input.take k)).output

/-- A concrete external compiler for instantiations: always exits 0 and
stamps the destination with mtime 7. -/
def okCompiler : Compiler := ⟨fun _ _ => 0, fun _ _ _ => some 7⟩

/-- A concrete external compiler that exits 1 on the source
`in/bad.png` and 0 elsewhere, always stamping the destination with
mtime 7. -/
def mixedCompiler : Compiler :=
  ⟨fun src _ => if src = ["in", "bad.png"] then 1 else 0,
   fun _ _ _ => some 7⟩

/-- A concrete input file for instantiations. -/
def sampleFile : FileEntry := ⟨[], "a.png", 5, []⟩

/-- A concrete filesystem state: one recognized file, empty output tree. -/
def sampleState : FSState := ⟨[sampleFile], []⟩

/-! ### `get_hash`: MD5 of the file contents (defined in the script but
never called by `compile_assets`) -/

/-- 32-bit complement of `x` (for `x < 2^32`). -/
def not32 (x : Nat) : Nat := 4294967295 - x % 4294967296

/-- Rotate a 32-bit value left by `n` bits. -/
def rotl32 (x n : Nat) : Nat :=
  (x * 2 ^ n) % 4294967296 + x % 4294967296 / 2 ^ (32 - n)

/-- MD5 per-round additive constants. -/
def md5K : List Nat :=
  [0xd76aa478, 0xe8c7b756, 0x242070db, 0xc1bdceee,
   0xf57c0faf, 0x4787c62a, 0xa8304613, 0xfd469501,
   0x698098d8, 0x8b44f7af, 0xffff5bb1, 0x895cd7be,
   0x6b901122, 0xfd987193, 0xa679438e, 0x49b40821,
   0xf61e2562, 0xc040b340, 0x265e5a51, 0xe9b6c7aa,
   0xd62f105d, 0x02441453, 0xd8a1e681, 0xe7d3fbc8,
   0x21e1cde6, 0xc33707d6, 0xf4d50d87, 0x455a14ed,
   0xa9e3e905, 0xfcefa3f8, 0x676f02d9, 0x8d2a4c8a,
   0xfffa3942, 0x8771f681, 0x6d9d6122, 0xfde5380c,
   0xa4beea44, 0x4bdecfa9, 0xf6bb4b60, 0xbebfbc70,
   0x289b7ec6, 0xeaa127fa, 0xd4ef3085, 0x04881d05,
   0xd9d4d039, 0xe6db99e5, 0x1fa27cf8, 0xc4ac5665,
   0xf4292244, 0x432aff97, 0xab9423a7, 0xfc93a039,
   0x655b59c3, 0x8f0ccc92, 0xffeff47d, 0x85845dd1,
   0x6fa87e4f, 0xfe2ce6e0, 0xa3014314, 0x4e0811a1,
   0xf7537e82, 0xbd3af235, 0x2ad7d2bb, 0xeb86d391]

/-- MD5 per-round left-rotation amounts. -/
def md5S : List Nat :=
  [7, 12, 17, 22, 7, 12, 17, 22, 7, 12, 17, 22, 7, 12, 17, 22,
   5, 9, 14, 20, 5, 9, 14, 20, 5, 9, 14, 20, 5, 9, 14, 20,
   4, 11, 16, 23, 4, 11, 16, 23, 4, 11, 16, 23, 4, 11, 16, 23,
   6, 10, 15, 21, 6, 10, 15, 21, 6, 10, 15, 21, 6, 10, 15, 21]

/-- Assemble four bytes into a little-endian 32-bit word. -/
def le32 (b0 b1 b2 b3 : Nat) : Nat :=
  b0 % 256 + 256 * (b1 % 256) + 65536 * (b2 % 256) + 16777216 * (b3 % 256)

/-- Split a byte list into little-endian 32-bit words. -/
def toWords : List Nat → List Nat
  | b0 :: b1 :: b2 :: b3 :: rest => le32 b0 b1 b2 b3 :: toWords rest
  | _ => []

/-- One MD5 round applied to the state `(A, B, C, D)`. -/
def md5round (M : List Nat) (st : Nat × Nat × Nat × Nat) (i : Nat) :
    Nat × Nat × Nat × Nat :=
  let (A, B, C, D) := st
  let F :=
    if i < 16 then (B &&& C) ||| (not32 B &&& D)
    else if i < 32 then (D &&& B) ||| (not32 D &&& C)
    else if i < 48 then B ^^^ C ^^^ D
    else C ^^^ (B ||| not32 D)
  let g :=
    if i < 16 then i
    else if i < 32 then (5 * i + 1) % 16
    else if i < 48 then (3 * i + 5) % 16
    else 7 * i % 16
  let Fv := (F + A + md5K.getD i 0 + M.getD g 0) % 4294967296
  (D, (B + rotl32 Fv (md5S.getD i 0)) % 4294967296, B, C)

/-- Process one 64-byte chunk. -/
def md5chunk (st : Nat × Nat × Nat × Nat) (chunk : List Nat) :
    Nat × Nat × Nat × Nat :=
  let M := toWords chunk
  let r := (List.range 64).foldl (md5round M) st
  ((st.1 + r.1) % 4294967296, (st.2.1 + r.2.1) % 4294967296,
   (st.2.2.1 + r.2.2.1) % 4294967296, (st.2.2.2 + r.2.2.2) % 4294967296)

/-- Process `n` successive 64-byte chunks of the padded message. -/
def md5chunks : Nat → Nat × Nat × Nat × Nat → List Nat → Nat × Nat × Nat × Nat
  | 0, st, _ => st
  | n + 1, st, bytes => md5chunks n (md5chunk st (bytes.take 64)) (bytes.drop 64)

/-- MD5 padding: append 0x80, zero bytes up to 56 mod 64, then the bit
length as a little-endian 64-bit quantity. -/
def padBytes (msg : List Nat) : List Nat :=
  let ml := msg.length * 8
  let z := (64 + 56 - (msg.length + 1) % 64) % 64
  msg ++ [128] ++ List.replicate z 0
      ++ ((List.range 8).map (fun i => ml / 256 ^ i % 256))

/-- A hexadecimal digit character. -/
def hexChar (n : Nat) : Char :=
  "0123456789abcdef".toList.getD n '0'

/-- Two lowercase hex characters of a byte. -/
def byteHex (b : Nat) : String :=
  String.mk [hexChar (b % 256 / 16), hexChar (b % 16)]

/-- The four little-endian bytes of a 32-bit word. -/
def word32bytes (w : Nat) : List Nat :=
  [w % 256, w / 256 % 256, w / 65536 % 256, w / 16777216 % 256]

/-- MD5 hex digest of a byte list (Python `hashlib.md5(buf).hexdigest()`). -/
def md5hex (msg : List Nat) : String :=
  let p := padBytes msg
  let r := md5chunks (p.length / 64)
    (1732584193, 4023233417, 2562383102, 271733878) p
  String.join ((word32bytes r.1 ++ word32bytes r.2.1
      ++ word32bytes r.2.2.1 ++ word32bytes r.2.2.2).map byteHex)

/-- `get_hash(file_path)`: MD5 hex digest of the full contents of the
file. Embedded over the content bytes; defined in the script but never
invoked by `compile_assets`. -/
def get_hash (content : List Nat) : String := md5hex content

/-- The fields of a file entry that the driver reads: everything except
the content bytes. Used to state content noninterference. -/
def eraseContent (f : FileEntry) : Path × String × Nat :=
  (f.dirs, f.name, f.mtime)

/-! ### Basic lemmas about one loop iteration -/

/-- A file with an unrecognized extension contributes nothing: no log,
no invocation, no directory creation, output tree unchanged. -/
theorem processFile_skip (input_dir output_dir : Path) (c : Compiler)
    (out : List (Path × Nat)) (f : FileEntry)
    (h : extClass f.name = none) :
    processFile input_dir output_dir c out f = ⟨[], [], [], out⟩ := by
  simp [processFile, h]

/-- A recognized file whose destination exists with mtime at least the
source's is fresh: only the `makedirs` call happens. -/
theorem processFile_fresh (input_dir output_dir : Path) (c : Compiler)
    (out : List (Path × Nat)) (f : FileEntry) (oext : String) (t : Nat)
    (h : extClass f.name = some oext)
    (hl : assocLookup out (dstPathOf output_dir f oext) = some t)
    (ht : f.mtime ≤ t) :
    processFile input_dir output_dir c out f
      = ⟨[], [], [output_dir ++ f.dirs], out⟩ := by
  simp [processFile, h, hl, Nat.not_lt.mpr ht]

/-- A recognized file whose destination is missing is compiled. -/
theorem processFile_stale_missing (input_dir output_dir : Path) (c : Compiler)
    (out : List (Path × Nat)) (f : FileEntry) (oext : String)
    (h : extClass f.name = some oext)
    (hl : assocLookup out (dstPathOf output_dir f oext) = none) :
    processFile input_dir output_dir c out f
      = ⟨["Compiling: " ++ joinPath (f.dirs ++ [f.name]) ++ " -> "
            ++ joinPath (f.dirs ++ [(splitext f.name).1 ++ oext])]
           ++ (if c.exitCode (srcPathOf input_dir f) (dstPathOf output_dir f oext) = 0
               then [] else
               ["Failed to compile " ++ joinPath (srcPathOf input_dir f)]),
         [(srcPathOf input_dir f, dstPathOf output_dir f oext)],
         [output_dir ++ f.dirs],
         setMtime out (dstPathOf output_dir f oext)
           (c.writes (srcPathOf input_dir f) (dstPathOf output_dir f oext) none)⟩ := by
  simp [processFile, h, hl]

/-- A recognized file whose destination is older than the source is
compiled. -/
theorem processFile_stale_old (input_dir output_dir : Path) (c : Compiler)
    (out : List (Path × Nat)) (f : FileEntry) (oext : String) (t : Nat)
    (h : extClass f.name = some oext)
    (hl : assocLookup out (dstPathOf output_dir f oext) = some t)
    (ht : t < f.mtime) :
    processFile input_dir output_dir c out f
      = ⟨["Compiling: " ++ joinPath (f.dirs ++ [f.name]) ++ " -> "
            ++ joinPath (f.dirs ++ [(splitext f.name).1 ++ oext])]
           ++ (if c.exitCode (srcPathOf input_dir f) (dstPathOf output_dir f oext) = 0
               then [] else
               ["Failed to compile " ++ joinPath (srcPathOf input_dir f)]),
         [(srcPathOf input_dir f, dstPathOf output_dir f oext)],
         [output_dir ++ f.dirs],
         setMtime out (dstPathOf output_dir f oext)
           (c.writes (srcPathOf input_dir f) (dstPathOf output_dir f oext) (some t))⟩ := by
  simp [processFile, h, hl, ht]

/-- Splitting the walked file list splits the run. -/
theorem runFiles_append (input_dir output_dir : Path) (c : Compiler)
    (out : List (Path × Nat)) (l1 l2 : List FileEntry) :
    runFiles input_dir output_dir c out (l1 ++ l2)
      = ⟨(runFiles input_dir output_dir c out l1).logs
           ++ (runFiles input_dir output_dir c
                (runFiles input_dir output_dir c out l1).output l2).logs,
         (runFiles input_dir output_dir c out l1).invocations
           ++ (runFiles input_dir output_dir c
                (runFiles input_dir output_dir c out l1).output l2).invocations,
         (runFiles input_dir output_dir c out l1).mkdirs
           ++ (runFiles input_dir output_dir c
                (runFiles input_dir output_dir c out l1).output l2).mkdirs,
         (runFiles input_dir output_dir c
           (runFiles input_dir output_dir c out l1).output l2).output⟩ := by
  induction l1 generalizing out with
  | nil => simp [runFiles]
  | cons f fs ih => simp [runFiles, ih]

/-- A file name that is exactly a leading dot followed by a recognized
extension has no extension at all under `splitext`, hence no class. -/
theorem leadingDot_no_ext :
    ∀ nm ∈ [".obj", ".fbx", ".gltf", ".glb",
            ".png", ".jpg", ".jpeg", ".tga", ".bmp"],
      splitext nm = (nm, "") ∧ extClass nm = none := by decide

/-! ### Claim theorems -/

/-- C2: when `compiler_path` does not exist, `compile_assets` prints the
error line and returns before any traversal: no invocation, no
directory creation, the filesystem state unchanged, and no exception
(the function is total). -/
theorem c2_missing_compiler_aborts (input_dir output_dir compiler_path : Path)
    (c : Compiler) (st : FSState) :
    compile_assets input_dir output_dir compiler_path c false st
      = ⟨["Error: Compiler not found at " ++ joinPath compiler_path],
         [], [], st⟩ := by
  simp [compile_assets]

/-- C5: a file whose extension is not in the recognized mapping is
skipped entirely: the iteration for it prints no log line, performs no
invocation, creates no directory, and leaves the output tree unchanged. -/
theorem c5_unrecognized_skipped (input_dir output_dir : Path) (c : Compiler)
    (out : List (Path × Nat)) (f : FileEntry)
    (h : extClass f.name = none) :
    (processFile input_dir output_dir c out f).logs = []
    ∧ (processFile input_dir output_dir c out f).invocations = []
    ∧ (processFile input_dir output_dir c out f).mkdirs = []
    ∧ (processFile input_dir output_dir c out f).output = out := by
  simp [processFile, h]

/-- C5 witness. -/
theorem c5_unrecognized_skipped_witness :
    extClass "a.txt" = none
    ∧ (processFile [] ["out"] ⟨fun _ _ => 0, fun _ _ _ => some 1⟩ []
        ⟨[], "a.txt", 5, [1]⟩).invocations = [] :=
  ⟨by decide,
   (c5_unrecognized_skipped [] ["out"] ⟨fun _ _ => 0, fun _ _ _ => some 1⟩ []
      ⟨[], "a.txt", 5, [1]⟩ (by decide)).2.1⟩

/-- C10: a file whose entire name is a leading-dot name equal to a
recognized extension (".obj", ".png", ...) has no extension under
`splitext` — the whole name is the root — and is therefore silently
skipped: no log, no invocation, no directory creation, no compile. -/
theorem c10_dotfile_skipped (input_dir output_dir : Path) (c : Compiler)
    (out : List (Path × Nat)) (dirs : Path) (m : Nat) (cont : List Nat)
    (nm : String)
    (h : nm ∈ [".obj", ".fbx", ".gltf", ".glb",
               ".png", ".jpg", ".jpeg", ".tga", ".bmp"]) :
    splitext nm = (nm, "")
    ∧ processFile input_dir output_dir c out ⟨dirs, nm, m, cont⟩
        = ⟨[], [], [], out⟩ := by
  obtain ⟨h1, h2⟩ := leadingDot_no_ext nm h
  exact ⟨h1, processFile_skip input_dir output_dir c out ⟨dirs, nm, m, cont⟩ h2⟩

/-- C10 witness. -/
theorem c10_dotfile_skipped_witness :
    ".png" ∈ [".obj", ".fbx", ".gltf", ".glb",
              ".png", ".jpg", ".jpeg", ".tga", ".bmp"]
    ∧ splitext ".png" = (".png", "")
    ∧ processFile ["in"] ["out"] ⟨fun _ _ => 0, fun _ _ _ => some 1⟩ []
        ⟨[], ".png", 7, []⟩ = ⟨[], [], [], []⟩ :=
  ⟨by decide,
   c10_dotfile_skipped ["in"] ["out"] ⟨fun _ _ => 0, fun _ _ _ => some 1⟩ []
     [] 7 [] ".png" (by decide)⟩

set_option maxHeartbeats 1600000 in
/-- C3: the extension classification matches exactly the fixed table —
lookup yields `.tmodel` precisely on the four 3D-model extensions,
`.ttex` precisely on the five image extensions, is defined on no other
key — and it is case-insensitive: the classification of a file name
depends only on the lowercased extension. (The table is a fixed
definition, never mutated.) -/
theorem c3_extension_table :
    (∀ e : String, assocLookup supported_extensions e = some ".tmodel"
        ↔ e ∈ [".obj", ".fbx", ".gltf", ".glb"])
    ∧ (∀ e : String, assocLookup supported_extensions e = some ".ttex"
        ↔ e ∈ [".png", ".jpg", ".jpeg", ".tga", ".bmp"])
    ∧ (∀ e : String, (assocLookup supported_extensions e).isSome = true
        ↔ e ∈ [".obj", ".fbx", ".gltf", ".glb",
               ".png", ".jpg", ".jpeg", ".tga", ".bmp"])
    ∧ (∀ n1 n2 : String, strLower (splitext n1).2 = strLower (splitext n2).2 →
        extClass n1 = extClass n2) := by
  refine ⟨?_, ?_, ?_, ?_⟩
  · intro e
    simp only [supported_extensions, assocLookup, List.mem_cons,
      List.not_mem_nil, or_false]
    split_ifs with h1 h2 h3 h4 h5 h6 h7 h8 h9
    · simp [h1]
    · simp [h2]
    · simp [h3]
    · simp [h4]
    · simp [h5]
    · simp [h6]
    · simp [h7]
    · simp [h8]
    · simp [h9]
    · simp [h1, h2, h3, h4]
  · intro e
    simp only [supported_extensions, assocLookup, List.mem_cons,
      List.not_mem_nil, or_false]
    split_ifs with h1 h2 h3 h4 h5 h6 h7 h8 h9
    · simp [h1]
    · simp [h2]
    · simp [h3]
    · simp [h4]
    · simp [h5]
    · simp [h6]
    · simp [h7]
    · simp [h8]
    · simp [h9]
    · simp [h5, h6, h7, h8, h9]
  · intro e
    simp only [supported_extensions, assocLookup, List.mem_cons,
      List.not_mem_nil, or_false]
    split_ifs with h1 h2 h3 h4 h5 h6 h7 h8 h9
    · simp [h1]
    · simp [h2]
    · simp [h3]
    · simp [h4]
    · simp [h5]
    · simp [h6]
    · simp [h7]
    · simp [h8]
    · simp [h9]
    · simp [h1, h2, h3, h4, h5, h6, h7, h8, h9]
  · intro n1 n2 h
    unfold extClass
    rw [h]

/-- C3 witness (case-insensitivity at a concrete uppercase extension). -/
theorem c3_extension_table_witness :
    strLower (splitext "m.OBJ").2 = strLower (splitext "m.obj").2
    ∧ extClass "m.OBJ" = extClass "m.obj" :=
  ⟨by decide, c3_extension_table.2.2.2 "m.OBJ" "m.obj" (by decide)⟩

/-- C4: for a recognized file the iteration creates exactly the
destination's parent directory `output_dir ++ dirs` (mirroring the
source subdirectory structure under the output root), and any compiler
invocation it performs receives the source path and the destination
path `output_dir ++ dirs ++ [base ++ mapped extension]` — the relative
path with its extension replaced, re-rooted at `output_dir`. -/
theorem c4_destination_layout (input_dir output_dir : Path) (c : Compiler)
    (out : List (Path × Nat)) (f : FileEntry) (oext : String)
    (h : extClass f.name = some oext) :
    (processFile input_dir output_dir c out f).mkdirs = [output_dir ++ f.dirs]
    ∧ ∀ pr ∈ (processFile input_dir output_dir c out f).invocations,
        pr = (input_dir ++ f.dirs ++ [f.name],
              output_dir ++ f.dirs ++ [(splitext f.name).1 ++ oext]) := by
  simp only [processFile, h]
  split
  · constructor
    · rfl
    · intro pr hpr
      simp only [List.mem_singleton] at hpr
      simp [hpr, srcPathOf, dstPathOf]
  · exact ⟨rfl, by intro pr hpr; simp at hpr⟩

/-- C4 witness. -/
theorem c4_destination_layout_witness :
    extClass "model.obj" = some ".tmodel"
    ∧ (processFile ["in"] ["out"] ⟨fun _ _ => 0, fun _ _ _ => some 9⟩ []
        ⟨["sub"], "model.obj", 3, []⟩).mkdirs = [["out", "sub"]] :=
  ⟨by decide,
   (c4_destination_layout ["in"] ["out"] ⟨fun _ _ => 0, fun _ _ _ => some 9⟩ []
      ⟨["sub"], "model.obj", 3, []⟩ ".tmodel" (by decide)).1⟩

/-- Erasing one key leaves lookups of other keys unchanged. -/
theorem assocLookup_eraseEntry_ne (m : List (Path × Nat)) (p q : Path)
    (h : q ≠ p) : assocLookup (eraseEntry m p) q = assocLookup m q := by
  induction m with
  | nil => rfl
  | cons e es ih =>
    by_cases he : e.1 = p
    · rw [eraseEntry, if_pos he, ih, assocLookup,
        if_neg (fun hq => h (hq.trans he))]
    · rw [eraseEntry, if_neg he, assocLookup, assocLookup]
      by_cases hq : q = e.1
      · rw [if_pos hq, if_pos hq]
      · rw [if_neg hq, if_neg hq, ih]

/-- Updating one destination leaves lookups of other paths unchanged. -/
theorem assocLookup_setMtime_ne (m : List (Path × Nat)) (p q : Path)
    (v : Option Nat) (h : q ≠ p) :
    assocLookup (setMtime m p v) q = assocLookup m q := by
  cases v with
  | none => exact assocLookup_eraseEntry_ne m p q h
  | some t =>
    rw [setMtime, assocLookup, if_neg h]
    exact assocLookup_eraseEntry_ne m p q h

/-- After writing a destination, looking it up yields the written mtime. -/
theorem assocLookup_setMtime_self (m : List (Path × Nat)) (p : Path)
    (t : Nat) : assocLookup (setMtime m p (some t)) p = some t := by
  rw [setMtime, assocLookup, if_pos rfl]

/-- Splitting a list at a valid index. -/
theorem listSplitAt {α : Type} (l : List α) (i : Nat) (hi : i < l.length) :
    l = l.take i ++ l.get ⟨i, hi⟩ :: l.drop (i + 1) := by
  conv_lhs => rw [← List.take_append_drop i l]
  congr 1
  rw [← List.getElem_cons_drop l i hi]
  rfl

/-- The invocations of a run over `l1 ++ g :: l2` are those of `l1`,
then those of `g` against the output state `l1` leaves, then those of
`l2`. -/
theorem runFiles_split_invocations (input_dir output_dir : Path)
    (c : Compiler) (out : List (Path × Nat)) (l1 l2 : List FileEntry)
    (g : FileEntry) :
    (runFiles input_dir output_dir c out (l1 ++ g :: l2)).invocations
      = (runFiles input_dir output_dir c out l1).invocations
        ++ (processFile input_dir output_dir c
              (runFiles input_dir output_dir c out l1).output g).invocations
        ++ (runFiles input_dir output_dir c
              (processFile input_dir output_dir c
                (runFiles input_dir output_dir c out l1).output g).output
              l2).invocations := by
  rw [runFiles_append]
  simp [runFiles, List.append_assoc]

/-- For a recognized file, the iteration invokes the compiler exactly
when the destination is missing or strictly older than the source, and
does not invoke it exactly when the destination exists with mtime at
least the source's. -/
theorem processFile_inv_iff (input_dir output_dir : Path) (c : Compiler)
    (out : List (Path × Nat)) (f : FileEntry) (oext : String)
    (h : extClass f.name = some oext) :
    ((processFile input_dir output_dir c out f).invocations
        = [(srcPathOf input_dir f, dstPathOf output_dir f oext)]
      ↔ (assocLookup out (dstPathOf output_dir f oext) = none
        ∨ ∃ t, assocLookup out (dstPathOf output_dir f oext) = some t
            ∧ t < f.mtime))
    ∧ ((processFile input_dir output_dir c out f).invocations = []
      ↔ ∃ t, assocLookup out (dstPathOf output_dir f oext) = some t
          ∧ f.mtime ≤ t) := by
  rcases hl : assocLookup out (dstPathOf output_dir f oext) with _ | t
  · rw [processFile_stale_missing input_dir output_dir c out f oext h hl]
    constructor
    · simp
    · simp
  · by_cases ht : t < f.mtime
    · rw [processFile_stale_old input_dir output_dir c out f oext t h hl ht]
      constructor
      · simp only [true_iff]
        exact Or.inr ⟨t, rfl, ht⟩
      · simp only [List.cons_ne_nil, false_iff]
        rintro ⟨t', ht', hle⟩
        cases ht'
        exact absurd ht (Nat.not_lt.mpr hle)
    · rw [processFile_fresh input_dir output_dir c out f oext t h hl
        (Nat.not_lt.mp ht)]
      constructor
      · simp only [List.nil_eq, List.cons_ne_nil, false_iff] -- [] = [x] is false
        rintro (hn | ⟨t', ht', hlt⟩)
        · exact Option.noConfusion hn
        · cases ht'
          exact absurd hlt ht
      · simp only [true_iff]
        exact ⟨t, rfl, Nat.not_lt.mp ht⟩

/-- C1: for every recognized file of the walked tree, the run of
`compile_assets` contributes that file's invocations between those of
the earlier and later files, and the compiler is invoked for it if and
only if, in the output state its staleness check runs against, the
destination path is absent or has modification time strictly less than
the source's; when the destination exists with mtime greater than or
equal to the source's, no invocation occurs for it. -/
theorem c1_staleness_iff (input_dir output_dir compiler_path : Path)
    (c : Compiler) (st : FSState) (i : Nat) (hi : i < st.input.length)
    (oext : String)
    (hrec : extClass (st.input.get ⟨i, hi⟩).name = some oext) :
    (compile_assets input_dir output_dir compiler_path c true st).invocations
      = (runFiles input_dir output_dir c st.output (st.input.take i)).invocations
        ++ (processFile input_dir output_dir c
              (walkPre input_dir output_dir c st i)
              (st.input.get ⟨i, hi⟩)).invocations
        ++ (runFiles input_dir output_dir c
              (processFile input_dir output_dir c
                (walkPre input_dir output_dir c st i)
                (st.input.get ⟨i, hi⟩)).output
              (st.input.drop (i + 1))).invocations
    ∧ ((processFile input_dir output_dir c
          (walkPre input_dir output_dir c st i)
          (st.input.get ⟨i, hi⟩)).invocations
        = [(srcPathOf input_dir (st.input.get ⟨i, hi⟩),
            dstPathOf output_dir (st.input.get ⟨i, hi⟩) oext)]
      ↔ (assocLookup (walkPre input_dir output_dir c st i)
            (dstPathOf output_dir (st.input.get ⟨i, hi⟩) oext) = none
        ∨ ∃ t, assocLookup (walkPre input_dir output_dir c st i)
            (dstPathOf output_dir (st.input.get ⟨i, hi⟩) oext) = some t
            ∧ t < (st.input.get ⟨i, hi⟩).mtime))
    ∧ ((processFile input_dir output_dir c
          (walkPre input_dir output_dir c st i)
          (st.input.get ⟨i, hi⟩)).invocations = []
      ↔ ∃ t, assocLookup (walkPre input_dir output_dir c st i)
            (dstPathOf output_dir (st.input.get ⟨i, hi⟩) oext) = some t
            ∧ (st.input.get ⟨i, hi⟩).mtime ≤ t) := by
  refine ⟨?_, (processFile_inv_iff input_dir output_dir c
      (walkPre input_dir output_dir c st i) (st.input.get ⟨i, hi⟩) oext hrec).1,
    (processFile_inv_iff input_dir output_dir c
      (walkPre input_dir output_dir c st i) (st.input.get ⟨i, hi⟩) oext hrec).2⟩
  have hsplit := listSplitAt st.input i hi
  show (if true then
      let r := runFiles input_dir output_dir c st.output st.input
      RunResult.mk r.logs r.invocations r.mkdirs ⟨st.input, r.output⟩
    else _).invocations = _
  rw [if_pos rfl]
  show (runFiles input_dir output_dir c st.output st.input).invocations = _
  conv_lhs => rw [hsplit]
  rw [runFiles_split_invocations]
  rfl

/-- C1 witness: a single recognized file over an empty output tree. -/
theorem c1_staleness_iff_witness :
    extClass (sampleState.input.get ⟨0, Nat.zero_lt_one⟩).name = some ".ttex"
    ∧ ((processFile ["in"] ["out"] okCompiler
          (walkPre ["in"] ["out"] okCompiler sampleState 0)
          (sampleState.input.get ⟨0, Nat.zero_lt_one⟩)).invocations
        = [(srcPathOf ["in"] (sampleState.input.get ⟨0, Nat.zero_lt_one⟩),
            dstPathOf ["out"] (sampleState.input.get ⟨0, Nat.zero_lt_one⟩) ".ttex")]
      ↔ (assocLookup (walkPre ["in"] ["out"] okCompiler sampleState 0)
            (dstPathOf ["out"] (sampleState.input.get ⟨0, Nat.zero_lt_one⟩) ".ttex") = none
        ∨ ∃ t, assocLookup (walkPre ["in"] ["out"] okCompiler sampleState 0)
            (dstPathOf ["out"] (sampleState.input.get ⟨0, Nat.zero_lt_one⟩) ".ttex") = some t
            ∧ t < (sampleState.input.get ⟨0, Nat.zero_lt_one⟩).mtime)) :=
  ⟨by decide,
   (c1_staleness_iff ["in"] ["out"] ["cc"] okCompiler sampleState 0
      Nat.zero_lt_one ".ttex" (by decide)).2.1⟩

/-- Unfolding `compile_assets` when the compiler executable exists. -/
theorem compile_assets_true (input_dir output_dir compiler_path : Path)
    (c : Compiler) (st : FSState) :
    compile_assets input_dir output_dir compiler_path c true st
      = ⟨(runFiles input_dir output_dir c st.output st.input).logs,
         (runFiles input_dir output_dir c st.output st.input).invocations,
         (runFiles input_dir output_dir c st.output st.input).mkdirs,
         ⟨st.input, (runFiles input_dir output_dir c st.output st.input).output⟩⟩ :=
  rfl

/-- C6: over a two-file tree with both destinations missing, a nonzero
compiler exit on the first file logs a failure naming its source path
and does not halt the run: the second file is still processed — both
invocations happen, in order — and the second destination is still
produced (it carries the mtime the compiler wrote). The run returns
normally. -/
theorem c6_failure_continues (input_dir output_dir compiler_path : Path)
    (c : Compiler) (st : FSState) (f1 f2 : FileEntry) (oe1 oe2 : String)
    (t2 : Nat)
    (hin : st.input = [f1, f2])
    (h1 : extClass f1.name = some oe1)
    (h2 : extClass f2.name = some oe2)
    (hs1 : assocLookup st.output (dstPathOf output_dir f1 oe1) = none)
    (hs2 : assocLookup st.output (dstPathOf output_dir f2 oe2) = none)
    (hne : dstPathOf output_dir f2 oe2 ≠ dstPathOf output_dir f1 oe1)
    (hfail : ¬ c.exitCode (srcPathOf input_dir f1)
        (dstPathOf output_dir f1 oe1) = 0)
    (hw : c.writes (srcPathOf input_dir f2) (dstPathOf output_dir f2 oe2)
        none = some t2) :
    ("Failed to compile " ++ joinPath (srcPathOf input_dir f1))
        ∈ (compile_assets input_dir output_dir compiler_path c true st).logs
    ∧ (compile_assets input_dir output_dir compiler_path c true st).invocations
        = [(srcPathOf input_dir f1, dstPathOf output_dir f1 oe1),
           (srcPathOf input_dir f2, dstPathOf output_dir f2 oe2)]
    ∧ assocLookup
        (compile_assets input_dir output_dir compiler_path c true st).fs.output
        (dstPathOf output_dir f2 oe2) = some t2 := by
  have step1 := processFile_stale_missing input_dir output_dir c st.output
    f1 oe1 h1 hs1
  have hs2' : assocLookup
      (setMtime st.output (dstPathOf output_dir f1 oe1)
        (c.writes (srcPathOf input_dir f1) (dstPathOf output_dir f1 oe1) none))
      (dstPathOf output_dir f2 oe2) = none := by
    rw [assocLookup_setMtime_ne _ _ _ _ hne]
    exact hs2
  have step2 := processFile_stale_missing input_dir output_dir c _ f2 oe2 h2 hs2'
  rw [compile_assets_true, hin]
  simp only [runFiles, step1, step2]
  refine ⟨?_, by simp, ?_⟩
  · rw [if_neg hfail]
    simp
  · rw [hw, assocLookup_setMtime_self]

/-- C6 witness: two stale files, the compiler failing on the first. -/
theorem c6_failure_continues_witness :
    (⟨[⟨[], "bad.png", 5, []⟩, ⟨[], "good.png", 5, []⟩], []⟩ : FSState).input
        = [⟨[], "bad.png", 5, []⟩, ⟨[], "good.png", 5, []⟩]
    ∧ ¬ mixedCompiler.exitCode (srcPathOf ["in"] ⟨[], "bad.png", 5, []⟩)
        (dstPathOf ["out"] ⟨[], "bad.png", 5, []⟩ ".ttex") = 0
    ∧ (compile_assets ["in"] ["out"] ["cc"] mixedCompiler true
          ⟨[⟨[], "bad.png", 5, []⟩, ⟨[], "good.png", 5, []⟩], []⟩).invocations
        = [(srcPathOf ["in"] ⟨[], "bad.png", 5, []⟩,
            dstPathOf ["out"] ⟨[], "bad.png", 5, []⟩ ".ttex"),
           (srcPathOf ["in"] ⟨[], "good.png", 5, []⟩,
            dstPathOf ["out"] ⟨[], "good.png", 5, []⟩ ".ttex")]
    ∧ assocLookup
        (compile_assets ["in"] ["out"] ["cc"] mixedCompiler true
          ⟨[⟨[], "bad.png", 5, []⟩, ⟨[], "good.png", 5, []⟩], []⟩).fs.output
        (dstPathOf ["out"] ⟨[], "good.png", 5, []⟩ ".ttex") = some 7 :=
  ⟨rfl, by decide,
   (c6_failure_continues ["in"] ["out"] ["cc"] mixedCompiler
      ⟨[⟨[], "bad.png", 5, []⟩, ⟨[], "good.png", 5, []⟩], []⟩
      ⟨[], "bad.png", 5, []⟩ ⟨[], "good.png", 5, []⟩ ".ttex" ".ttex" 7
      rfl (by decide) (by decide) (by decide) (by decide) (by decide)
      (by decide) (by decide)).2.1,
   (c6_failure_continues ["in"] ["out"] ["cc"] mixedCompiler
      ⟨[⟨[], "bad.png", 5, []⟩, ⟨[], "good.png", 5, []⟩], []⟩
      ⟨[], "bad.png", 5, []⟩ ⟨[], "good.png", 5, []⟩ ".ttex" ".ttex" 7
      rfl (by decide) (by decide) (by decide) (by decide) (by decide)
      (by decide) (by decide)).2.2⟩

/-- When every recognized file of the walked list is fresh against the
output tree, the walk logs nothing, invokes nothing, and leaves the
output tree unchanged. -/
theorem runFiles_all_fresh (input_dir output_dir : Path) (c : Compiler)
    (out : List (Path × Nat)) (files : List FileEntry)
    (h : ∀ f ∈ files, ∀ oext, extClass f.name = some oext →
        ∃ t, assocLookup out (dstPathOf output_dir f oext) = some t
            ∧ f.mtime ≤ t) :
    (runFiles input_dir output_dir c out files).logs = []
    ∧ (runFiles input_dir output_dir c out files).invocations = []
    ∧ (runFiles input_dir output_dir c out files).output = out := by
  induction files with
  | nil => exact ⟨rfl, rfl, rfl⟩
  | cons f fs ih =>
    have ihh := ih (fun g hg => h g (List.mem_cons_of_mem f hg))
    rcases hE : extClass f.name with _ | oext
    · have hstep := processFile_skip input_dir output_dir c out f hE
      refine ⟨?_, ?_, ?_⟩ <;>
        simp [runFiles, hstep, ihh.1, ihh.2.1, ihh.2.2]
    · obtain ⟨t, hl, ht⟩ := h f (List.mem_cons_self f fs) oext hE
      have hstep := processFile_fresh input_dir output_dir c out f oext t hE hl ht
      refine ⟨?_, ?_, ?_⟩ <;>
        simp [runFiles, hstep, ihh.1, ihh.2.1, ihh.2.2]

/-- C7: idempotence. If every recognized source file's destination
exists with modification time at least the source's (as a completed
first run leaves things, with no source changed since), a run performs
zero compiler invocations, prints zero log lines (in particular zero
compiling messages), and leaves the filesystem state unchanged. -/
theorem c7_second_run_noop (input_dir output_dir compiler_path : Path)
    (c : Compiler) (st : FSState)
    (h : ∀ f ∈ st.input, ∀ oext, extClass f.name = some oext →
        ∃ t, assocLookup st.output (dstPathOf output_dir f oext) = some t
            ∧ f.mtime ≤ t) :
    (compile_assets input_dir output_dir compiler_path c true st).logs = []
    ∧ (compile_assets input_dir output_dir compiler_path c true st).invocations
        = []
    ∧ (compile_assets input_dir output_dir compiler_path c true st).fs = st := by
  obtain ⟨inp, outp⟩ := st
  have hr := runFiles_all_fresh input_dir output_dir c outp inp h
  rw [compile_assets_true]
  exact ⟨hr.1, hr.2.1, by rw [hr.2.2]⟩

/-- C7 witness: one recognized file whose destination is newer. -/
theorem c7_second_run_noop_witness :
    (∀ f ∈ (⟨[sampleFile], [(["out", "a.ttex"], 9)]⟩ : FSState).input,
        ∀ oext, extClass f.name = some oext →
          ∃ t, assocLookup
              (⟨[sampleFile], [(["out", "a.ttex"], 9)]⟩ : FSState).output
              (dstPathOf ["out"] f oext) = some t ∧ f.mtime ≤ t)
    ∧ (compile_assets ["in"] ["out"] ["cc"] okCompiler true
        ⟨[sampleFile], [(["out", "a.ttex"], 9)]⟩).invocations = [] := by
  have hfresh : ∀ f ∈ (⟨[sampleFile], [(["out", "a.ttex"], 9)]⟩ : FSState).input,
      ∀ oext, extClass f.name = some oext →
        ∃ t, assocLookup
            (⟨[sampleFile], [(["out", "a.ttex"], 9)]⟩ : FSState).output
            (dstPathOf ["out"] f oext) = some t ∧ f.mtime ≤ t := by
    intro f hf oext hE
    simp only [List.mem_singleton] at hf
    subst hf
    have hs : extClass sampleFile.name = some ".ttex" := by decide
    rw [hs] at hE
    injection hE with hoe
    subst hoe
    exact ⟨9, by decide, by decide⟩
  exact ⟨hfresh,
    (c7_second_run_noop ["in"] ["out"] ["cc"] okCompiler
      ⟨[sampleFile], [(["out", "a.ttex"], 9)]⟩ hfresh).2.1⟩

/-- Every directory one iteration creates is under the output root. -/
theorem processFile_mkdirs_under (input_dir output_dir : Path) (c : Compiler)
    (out : List (Path × Nat)) (f : FileEntry) :
    ∀ d ∈ (processFile input_dir output_dir c out f).mkdirs,
      ∃ r, d = output_dir ++ r := by
  rcases hE : extClass f.name with _ | oext
  · simp [processFile, hE]
  · simp only [processFile, hE]
    split
    · intro d hd
      simp only [List.mem_singleton] at hd
      exact ⟨f.dirs, hd⟩
    · intro d hd
      simp only [List.mem_singleton] at hd
      exact ⟨f.dirs, hd⟩

/-- Every invocation one iteration performs has its destination under
the output root. -/
theorem processFile_inv_under (input_dir output_dir : Path) (c : Compiler)
    (out : List (Path × Nat)) (f : FileEntry) :
    ∀ pr ∈ (processFile input_dir output_dir c out f).invocations,
      ∃ r, pr.2 = output_dir ++ r := by
  rcases hE : extClass f.name with _ | oext
  · simp [processFile, hE]
  · simp only [processFile, hE]
    split
    · intro pr hpr
      simp only [List.mem_singleton] at hpr
      exact ⟨f.dirs ++ [(splitext f.name).1 ++ oext],
        by rw [hpr]; simp [dstPathOf]⟩
    · intro pr hpr
      simp at hpr

/-- Lifting the two containment facts to a whole walk. -/
theorem runFiles_under (input_dir output_dir : Path) (c : Compiler)
    (out : List (Path × Nat)) (files : List FileEntry) :
    (∀ d ∈ (runFiles input_dir output_dir c out files).mkdirs,
        ∃ r, d = output_dir ++ r)
    ∧ (∀ pr ∈ (runFiles input_dir output_dir c out files).invocations,
        ∃ r, pr.2 = output_dir ++ r) := by
  induction files generalizing out with
  | nil => exact ⟨by intro d hd; simp [runFiles] at hd,
      by intro pr hpr; simp [runFiles] at hpr⟩
  | cons f fs ih =>
    constructor
    · intro d hd
      simp only [runFiles, List.mem_append] at hd
      rcases hd with hd | hd
      · exact processFile_mkdirs_under input_dir output_dir c out f d hd
      · exact (ih _).1 d hd
    · intro pr hpr
      simp only [runFiles, List.mem_append] at hpr
      rcases hpr with hpr | hpr
      · exact processFile_inv_under input_dir output_dir c out f pr hpr
      · exact (ih _).2 pr hpr

/-- C8: frame property. A run never touches the input tree (the walked
input files are returned untouched), and its only filesystem effects
are directory creations under `output_dir` and compiler invocations
whose destination argument is always a path under `output_dir`. -/
theorem c8_frame (input_dir output_dir compiler_path : Path) (c : Compiler)
    (ce : Bool) (st : FSState) :
    (compile_assets input_dir output_dir compiler_path c ce st).fs.input
        = st.input
    ∧ (∀ d ∈ (compile_assets input_dir output_dir compiler_path c ce st).mkdirs,
        ∃ r, d = output_dir ++ r)
    ∧ (∀ pr ∈ (compile_assets input_dir output_dir compiler_path
          c ce st).invocations,
        ∃ r, pr.2 = output_dir ++ r) := by
  cases ce with
  | false =>
    refine ⟨rfl, ?_, ?_⟩
    · intro d hd
      simp [compile_assets] at hd
    · intro pr hpr
      simp [compile_assets] at hpr
  | true =>
    rw [compile_assets_true]
    exact ⟨rfl, (runFiles_under input_dir output_dir c st.output st.input).1,
      (runFiles_under input_dir output_dir c st.output st.input).2⟩

/-- C8 witness. -/
theorem c8_frame_witness :
    (compile_assets ["in"] ["out"] ["cc"] okCompiler true sampleState).fs.input
        = sampleState.input
    ∧ (["out"] : Path)
        ∈ (compile_assets ["in"] ["out"] ["cc"] okCompiler true sampleState).mkdirs
    ∧ (∃ r, (["out"] : Path) = ["out"] ++ r) :=
  ⟨(c8_frame ["in"] ["out"] ["cc"] okCompiler true sampleState).1,
   by decide,
   (c8_frame ["in"] ["out"] ["cc"] okCompiler true sampleState).2.1
     ["out"] (by decide)⟩

/-- One iteration reads nothing from a file's content bytes: entries
agreeing on directory, name and mtime are processed identically. -/
theorem processFile_content_blind (input_dir output_dir : Path) (c : Compiler)
    (out : List (Path × Nat)) (f1 f2 : FileEntry)
    (h : eraseContent f1 = eraseContent f2) :
    processFile input_dir output_dir c out f1
      = processFile input_dir output_dir c out f2 := by
  obtain ⟨d1, n1, m1, b1⟩ := f1
  obtain ⟨d2, n2, m2, b2⟩ := f2
  simp only [eraseContent, Prod.mk.injEq] at h
  obtain ⟨hd, hn, hm⟩ := h
  subst hd
  subst hn
  subst hm
  rfl

/-- A whole walk reads nothing from content bytes. -/
theorem runFiles_content_blind (input_dir output_dir : Path) (c : Compiler)
    (out : List (Path × Nat)) (l1 l2 : List FileEntry)
    (h : l1.map eraseContent = l2.map eraseContent) :
    runFiles input_dir output_dir c out l1
      = runFiles input_dir output_dir c out l2 := by
  induction l1 generalizing out l2 with
  | nil =>
    cases l2 with
    | nil => rfl
    | cons g gs => simp at h
  | cons f fs ih =>
    cases l2 with
    | nil => simp at h
    | cons g gs =>
      simp only [List.map_cons, List.cons.injEq] at h
      simp only [runFiles]
      rw [processFile_content_blind input_dir output_dir c out f g h.1,
        ih ((processFile input_dir output_dir c out g).output) gs h.2]

/-- C9: content noninterference. Two filesystem states agreeing on file
names, directories, existence and modification times — but with
arbitrarily different file contents — produce identical log lines,
identical compiler invocations (same path arguments), identical
directory creations, and identical final output trees: the staleness
decisions never depend on content, and in particular `get_hash` plays
no part in them. -/
theorem c9_content_noninterference (input_dir output_dir compiler_path : Path)
    (c : Compiler) (ce : Bool) (st1 st2 : FSState)
    (hin : st1.input.map eraseContent = st2.input.map eraseContent)
    (hout : st1.output = st2.output) :
    (compile_assets input_dir output_dir compiler_path c ce st1).logs
      = (compile_assets input_dir output_dir compiler_path c ce st2).logs
    ∧ (compile_assets input_dir output_dir compiler_path c ce st1).invocations
      = (compile_assets input_dir output_dir compiler_path c ce st2).invocations
    ∧ (compile_assets input_dir output_dir compiler_path c ce st1).mkdirs
      = (compile_assets input_dir output_dir compiler_path c ce st2).mkdirs
    ∧ (compile_assets input_dir output_dir compiler_path c ce st1).fs.output
      = (compile_assets input_dir output_dir compiler_path c ce st2).fs.output := by
  cases ce with
  | false => exact ⟨rfl, rfl, rfl, hout⟩
  | true =>
    have hr := runFiles_content_blind input_dir output_dir c st1.output
      st1.input st2.input hin
    rw [compile_assets_true, compile_assets_true, ← hout, hr]
    exact ⟨rfl, rfl, rfl, rfl⟩

/-- C9 witness: same names and mtimes, different contents — `get_hash`
distinguishes the contents, the run does not. -/
theorem c9_content_noninterference_witness :
    (⟨[⟨[], "a.png", 5, [1, 2]⟩], []⟩ : FSState).input.map eraseContent
        = (⟨[⟨[], "a.png", 5, [3]⟩], []⟩ : FSState).input.map eraseContent
    ∧ ¬ get_hash [1, 2] = get_hash [3]
    ∧ (compile_assets ["in"] ["out"] ["cc"] okCompiler true
          ⟨[⟨[], "a.png", 5, [1, 2]⟩], []⟩).logs
        = (compile_assets ["in"] ["out"] ["cc"] okCompiler true
          ⟨[⟨[], "a.png", 5, [3]⟩], []⟩).logs :=
  ⟨by decide, by decide,
   (c9_content_noninterference ["in"] ["out"] ["cc"] okCompiler true
      ⟨[⟨[], "a.png", 5, [1, 2]⟩], []⟩ ⟨[⟨[], "a.png", 5, [3]⟩], []⟩
      (by decide) rfl).1⟩

end TinyGL
